import Mathlib

/-!
Verification development for the mini-consol block-model processing tool.

The embedding models the two Python modules `rules_config.py` (rule store)
and `data_processor.py` (reading, column mapping, capping, derived column,
consolidation).  Tables are modelled as a column-name list plus rows of
cells; cell values are rationals (for the tool's float arithmetic), strings,
or a missing marker (`nan`).  File reads are modelled by their outcome: a
parse failure is `none`, a parsed table is `some df`.  Every operation is a
pure function; the Python methods that mutate state in place are embedded as
functions from the old state to the new state (or to an `Except` value when
the original raises).
-/

namespace MiniConsol

/-- A cell of a table: a numeric value (the tool's floats, modelled as
rationals), a string, or the missing marker (pandas `NaN`). -/
inductive Value where
  | num (q : ℚ)
  | str (s : String)
  | nan
deriving DecidableEq, Repr

/-- Canonical rendering of a rational, standing in for Python `str()` on a
number: integers print without a denominator. -/
def ratToString (q : ℚ) : String :=
  if q.den = 1 then toString q.num else toString q.num ++ "/" ++ toString q.den

/-- Python `str()` / pandas `astype(str)` on one cell; `NaN` prints as
`"nan"` exactly as pandas renders missing values. -/
def valueToString : Value → String
  | .num q => ratToString q
  | .str s => s
  | .nan => "nan"

/-- Decimal digit parsing helper for the numeric-string model. -/
def digitVal (c : Char) : Option ℕ :=
  if c.isDigit then some (c.toNat - 48) else none

/-- Accumulating decimal parser over a digit list; fails on a non-digit. -/
def parseDigitsAux (acc : ℕ) : List Char → Option ℕ
  | [] => some acc
  | c :: cs =>
    match digitVal c with
    | some d => parseDigitsAux (10 * acc + d) cs
    | none => none

/-- Parse an unsigned decimal literal (`"12"`, `"12.5"`, `".5"`, `"12."`),
the fragment of Python float syntax the model supports. -/
def parseUnsigned (cs : List Char) : Option ℚ :=
  let ip := cs.takeWhile (· ≠ '.')
  let rest := cs.dropWhile (· ≠ '.')
  match rest with
  | [] =>
    match ip with
    | [] => none
    | _ =>
      match parseDigitsAux 0 ip with
      | some n => some (n : ℚ)
      | none => none
  | _ :: fp =>
    if ip = [] ∧ fp = [] then none
    else
      match parseDigitsAux 0 ip, parseDigitsAux 0 fp with
      | some n, some f => some ((n : ℚ) + (f : ℚ) / ((10 : ℚ) ^ fp.length))
      | _, _ => none

/-- Parse a signed decimal literal, the model of `float(s)` for the strings
pandas `to_numeric` can convert. -/
def parseRatQ : String → Option ℚ
  | s =>
    match s.toList with
    | '-' :: cs => (parseUnsigned cs).map (fun q => -q)
    | '+' :: cs => parseUnsigned cs
    | cs => parseUnsigned cs

/-- `pd.to_numeric(·, errors="coerce")` on one cell: numbers pass through,
numeric strings convert, anything else becomes missing. -/
def toNumericValue : Value → Value
  | .num q => .num q
  | .nan => .nan
  | .str s =>
    match parseRatQ s with
    | some q => .num q
    | none => .nan

/-- A table: column names in order, and rows of cells positionally aligned
with the column list. -/
structure DataFrame where
  cols : List String
  data : List (List Value)
deriving DecidableEq, Repr

/-- Index of a column name (length of `cols` when absent). -/
def colIdx (cols : List String) (c : String) : ℕ := cols.indexOf c

/-- Read one cell of a row by column name (missing marker when the column is
absent or the row is short). -/
def cellAt (cols : List String) (row : List Value) (c : String) : Value :=
  row.getD (colIdx cols c) .nan

/-- Overwrite one cell of a row by column name (no-op when absent). -/
def setCellAt (cols : List String) (row : List Value) (c : String) (v : Value) : List Value :=
  row.set (colIdx cols c) v

/-- A whole column as a list of cells, row order preserved. -/
def DataFrame.getCol (df : DataFrame) (c : String) : List Value :=
  df.data.map (fun row => cellAt df.cols row c)

/-- Align a value list to a row count, as pandas aligns an assigned series
on a fresh integer index: missing tail filled with `NaN`, excess dropped. -/
def alignTo (n : ℕ) (vs : List Value) : List Value :=
  vs.take n ++ List.replicate (n - vs.length) Value.nan

/-- `df[c] = values`: overwrite the column in place when it exists, append a
new column at the end otherwise (pandas column-assignment semantics). -/
def DataFrame.setCol (df : DataFrame) (c : String) (vs : List Value) : DataFrame :=
  let w := alignTo df.data.length vs
  if c ∈ df.cols then
    ⟨df.cols, (df.data.zip w).map (fun p => p.1.set (colIdx df.cols c) p.2)⟩
  else
    ⟨df.cols ++ [c], (df.data.zip w).map (fun p => p.1 ++ [p.2])⟩

/-- `df[c] = f(df[c])` cell-wise (used for the coercion steps). -/
def DataFrame.mapColApply (df : DataFrame) (c : String) (f : Value → Value) : DataFrame :=
  ⟨df.cols, df.data.map (fun r => setCellAt df.cols r c (f (cellAt df.cols r c)))⟩

/-- `df[c] = scalar`: broadcast one value down a (new or existing) column. -/
def DataFrame.setColConst (df : DataFrame) (c : String) (v : Value) : DataFrame :=
  df.setCol c (List.replicate df.data.length v)

/-- Union of column lists in first-seen order, as `pd.concat` (with
`sort=False`) arranges the columns of heterogeneous frames. -/
def unionCols (dfs : List DataFrame) : List String :=
  dfs.foldl (fun a df => df.cols.foldl (fun a2 c => if c ∈ a2 then a2 else a2 ++ [c]) a) []

/-- `pd.concat(dfs, ignore_index=True)`: rows in frame order, columns the
first-seen union, cells absent from a frame filled with the missing marker. -/
def dfConcat (dfs : List DataFrame) : DataFrame :=
  let cs := unionCols dfs
  ⟨cs, dfs.flatMap (fun df => df.data.map (fun row => cs.map (fun c => cellAt df.cols row c)))⟩

/-! ## Rule store (`rules_config.py`) -/

/-- One capping rule, the five fields `add_rule` constructs (labels already
coerced to strings, bounds and multiplier to floats). -/
structure CapRule where
  solido : String
  pas_cut : String
  rango_min : ℚ
  rango_max : ℚ
  multiplicador : ℚ
deriving DecidableEq, Repr

/-- The grouping key `(solido, pas_cut)` of a rule. -/
def ruleKey (r : CapRule) : String × String := (r.solido, r.pas_cut)

/-- The validation failures `add_rule` can raise. -/
inductive AddError where
  | invalidRange
  | invalidMultiplier
deriving DecidableEq, Repr

/-- `_find_overlapping_rule`: first stored rule with the same key whose
half-open range overlaps the new rule's
(`new_min < existing_max and new_max > existing_min`). -/
def findOverlappingRule (rules : List CapRule) (newRule : CapRule) : Option CapRule :=
  rules.find? (fun r =>
    r.solido == newRule.solido && r.pas_cut == newRule.pas_cut &&
    decide (newRule.rango_min < r.rango_max) && decide (newRule.rango_max > r.rango_min))

/-- `add_rule`: validate the range and the multiplier, remove the first
overlapping same-key rule when one exists, then append the new rule. -/
def addRule (rules : List CapRule) (solido pas_cut : String) (rango_min rango_max multiplicador : ℚ) :
    Except AddError (List CapRule) :=
  if rango_max ≤ rango_min then .error .invalidRange
  else if multiplicador ≤ 0 then .error .invalidMultiplier
  else
    let newRule : CapRule := ⟨solido, pas_cut, rango_min, rango_max, multiplicador⟩
    match findOverlappingRule rules newRule with
    | some r => .ok (rules.erase r ++ [newRule])
    | none => .ok (rules ++ [newRule])

/-- `remove_rule`: erase the first rule matching all four key fields; the
flag reports whether one was found. -/
def removeRule (rules : List CapRule) (solido pas_cut : String) (rango_min rango_max : ℚ) :
    Bool × List CapRule :=
  match rules.find? (fun r =>
      r.solido == solido && r.pas_cut == pas_cut &&
      decide (r.rango_min = rango_min) && decide (r.rango_max = rango_max)) with
  | some r => (true, rules.erase r)
  | none => (false, rules)

/-- `clear_all_rules`. -/
def clearAllRules (_rules : List CapRule) : List CapRule := []

/-- Ordering of rules by `rango_min`, the sort key `validate_rules` and
`get_rules_for_solido_pascut` use. -/
def ruleLE (a b : CapRule) : Prop := a.rango_min ≤ b.rango_min

instance : DecidableRel ruleLE := fun a b => inferInstanceAs (Decidable (a.rango_min ≤ b.rango_min))

instance : IsTotal CapRule ruleLE := ⟨fun a b => le_total a.rango_min b.rango_min⟩

instance : IsTrans CapRule ruleLE := ⟨fun _ _ _ h h2 => le_trans h h2⟩

/-- Group keys in first-insertion order, as iterating a Python dict built by
appending rules in list order yields them. -/
def groupKeys (rules : List CapRule) : List (String × String) :=
  rules.foldl (fun a r => if ruleKey r ∈ a then a else a ++ [ruleKey r]) []

/-- All rules of one group, in stored order. -/
def groupFor (rules : List CapRule) (k : String × String) : List CapRule :=
  rules.filter (fun r => decide (ruleKey r = k))

/-- A group sorted ascending by `rango_min` (Python's stable list sort). -/
def sortGroup (g : List CapRule) : List CapRule := g.insertionSort ruleLE

/-- The error string `validate_rules` appends for one adjacent violation. -/
def overlapMsg (a b : CapRule) : String :=
  "Solapamiento detectado en solido=" ++ a.solido ++ ", pas_cut=" ++ a.pas_cut ++
    ": rango [" ++ ratToString a.rango_min ++ ", " ++ ratToString a.rango_max ++
    ") solapa con [" ++ ratToString b.rango_min ++ ", " ++ ratToString b.rango_max ++ ")"

/-- Adjacent-pair scan of a sorted group: one error per pair with
`current.rango_max > next.rango_min`. -/
def adjacentErrors : List CapRule → List String
  | [] => []
  | [_] => []
  | a :: b :: rest =>
    (if b.rango_min < a.rango_max then [overlapMsg a b] else []) ++ adjacentErrors (b :: rest)

/-- `validate_rules`: group by key, sort each group by `rango_min`, report
every adjacent violation. -/
def validateRules (rules : List CapRule) : List String :=
  (groupKeys rules).flatMap (fun k => adjacentErrors (sortGroup (groupFor rules k)))

/-! ## Capping engine and derived column (`data_processor.py`) -/

/-- `cell >= q` as pandas evaluates it (false on non-numeric cells). -/
def valueGE (v : Value) (q : ℚ) : Bool :=
  match v with
  | .num x => decide (q ≤ x)
  | _ => false

/-- `cell < q` as pandas evaluates it (false on non-numeric cells). -/
def valueLT (v : Value) (q : ℚ) : Bool :=
  match v with
  | .num x => decide (x < q)
  | _ => false

/-- Scale a numeric cell by a rational; non-numeric cells pass through
(`NaN * m` is `NaN`). -/
def valueMulQ (v : Value) (m : ℚ) : Value :=
  match v with
  | .num x => .num (x * m)
  | v => v

/-- Cell-wise product of two columns (`NaN` when either side is not a
number). -/
def valueMul (a b : Value) : Value :=
  match a, b with
  | .num x, .num y => .num (x * y)
  | _, _ => .nan

/-- The row mask of one capping rule:
`solido == rule.solido and pas_cut == rule.pas_cut and
cut_op >= rango_min and cut_op < rango_max`. -/
def ruleMask (cols : List String) (r : CapRule) (row : List Value) : Bool :=
  (cellAt cols row "solido" == Value.str r.solido) &&
  (cellAt cols row "pas_cut" == Value.str r.pas_cut) &&
  valueGE (cellAt cols row "cut_op") r.rango_min &&
  valueLT (cellAt cols row "cut_op") r.rango_max

/-- Apply one rule to one row: where the mask holds, overwrite `cut_plan`
with `cut_op * multiplicador`. -/
def applyRuleRow (cols : List String) (r : CapRule) (row : List Value) : List Value :=
  if ruleMask cols r row then
    setCellAt cols row "cut_plan" (valueMulQ (cellAt cols row "cut_op") r.multiplicador)
  else row

/-- One iteration of the rule loop of `_apply_capping_rules`: apply one rule
to every row of the frame. -/
def capStep (d : DataFrame) (r : CapRule) : DataFrame :=
  ⟨d.cols, d.data.map (applyRuleRow d.cols r)⟩

/-- `_apply_capping_rules`: initialise `cut_plan` as a copy of `cut_op`,
then apply every rule in list order. -/
def applyCappingRules (df : DataFrame) (rules : List CapRule) : DataFrame :=
  rules.foldl capStep (df.setCol "cut_plan" (df.getCol "cut_op"))

/-- The default derived-column formula string. -/
def cusPlanFormulaDefault : String := "rst_op * cut_plan"

/-- The default computation `cus_plan = rst_op * cut_plan`. -/
def defaultCusPlan (df : DataFrame) : DataFrame :=
  df.setCol "cus_plan" (List.zipWith valueMul (df.getCol "rst_op") (df.getCol "cut_plan"))

/-- `_calculate_cus_plan`: the default formula string takes the fast path;
any other formula is handed to an evaluator (`eval` in the source, modelled
as a function parameter).  An evaluation error, or a result the subsequent
`np.isinf` check cannot handle (non-numeric cells), falls back to the
default formula. -/
def calculateCusPlan (evalFormula : String → DataFrame → Except String (List Value))
    (formula : String) (df : DataFrame) : DataFrame :=
  if formula = cusPlanFormulaDefault then defaultCusPlan df
  else
    match evalFormula formula df with
    | .ok vs =>
      if vs.any (fun v => match v with | .str _ => true | _ => false) then defaultCusPlan df
      else df.setCol "cus_plan" vs
    | .error _ => defaultCusPlan df

/-! ## Pipelines (`process_block_models`, `process_individual_file`) -/

/-- The failures the pipeline functions distinguish. -/
inductive ProcError where
  | missingColumn (col : String)
  | missingRequired (cols : List String)
  | noProcessableFiles
  | noCleanData
deriving DecidableEq, Repr

/-- The three normalized column names `_map_columns` re-checks. -/
def requiredCols : List String := ["cut_op", "rst_op", "pas_cut"]

/-- The mapping loop of `_map_columns`: membership is checked against the
original frame's columns, the copied values are read from the accumulating
frame. -/
def mapColumnsLoop (orig : DataFrame) : List (String × String) → DataFrame → Except ProcError DataFrame
  | [], acc => .ok acc
  | (stdName, userCol) :: rest, acc =>
    if userCol ∈ orig.cols then
      mapColumnsLoop orig rest (acc.setCol stdName (acc.getCol userCol))
    else .error (.missingColumn userCol)

/-- `_map_columns`: copy each user column to its normalized name, re-check
the three required columns, coerce `cut_op`/`rst_op` to numeric and
`pas_cut` to string. -/
def mapColumns (df : DataFrame) (mapping : List (String × String)) : Except ProcError DataFrame :=
  match mapColumnsLoop df mapping df with
  | .error e => .error e
  | .ok m =>
    let missing := requiredCols.filter (fun c => !(m.cols.contains c))
    if missing = [] then
      let m2 := (m.mapColApply "cut_op" toNumericValue).mapColApply "rst_op" toNumericValue
      .ok (m2.mapColApply "pas_cut" (fun v => .str (valueToString v)))
    else .error (.missingRequired missing)

/-- First pass of `process_block_models` on one file: a read failure, an
empty frame or a mapping error is caught and the file is skipped (`none`);
otherwise the mapped frame gets its `solido` label column. -/
def processFile1 (mapping : List (String × String)) (i : ℕ) (file : Option DataFrame)
    (lab : Option String) : Option DataFrame :=
  match file with
  | none => none
  | some df =>
    if df.data = [] then none
    else
      match mapColumns df mapping with
      | .error _ => none
      | .ok m => some (m.setColConst "solido" (.str (lab.getD ("solido_" ++ toString i))))

/-- All frames surviving the first pass, in file order. -/
def stage1Goods (files : List (Option DataFrame)) (labels : List (Option String))
    (mapping : List (String × String)) : List DataFrame :=
  ((files.zip labels).enum).filterMap (fun p => processFile1 mapping p.1 p.2.1 p.2.2)

/-- Second pass of `process_block_models`: re-read and re-map every file.
Read failures and empty frames are skipped, but a mapping error here is NOT
caught and aborts the whole call (the source has no try/except around this
loop). -/
def cleanTables (mapping : List (String × String)) : List (Option DataFrame) → Except ProcError (List DataFrame)
  | [] => .ok []
  | none :: rest => cleanTables mapping rest
  | some df :: rest =>
    if df.data = [] then cleanTables mapping rest
    else
      match mapColumns df mapping with
      | .error e => .error e
      | .ok m =>
        match cleanTables mapping rest with
        | .error e => .error e
        | .ok others => .ok (if m.data = [] then others else m :: others)

/-- `process_block_models` (consolidate-all mode): first pass with per-file
skip, concatenation, capping, derived column; then the second re-read pass,
and the three computed columns appended to the re-read concatenation. -/
def processBlockModels (files : List (Option DataFrame)) (labels : List (Option String))
    (mapping : List (String × String)) (rules : List CapRule)
    (evalFormula : String → DataFrame → Except String (List Value)) (formula : String) :
    Except ProcError DataFrame :=
  let goods := stage1Goods files labels mapping
  if goods = [] then .error .noProcessableFiles
  else
    let derived := calculateCusPlan evalFormula formula (applyCappingRules (dfConcat goods) rules)
    match cleanTables mapping files with
    | .error e => .error e
    | .ok clean =>
      if clean = [] then .error .noCleanData
      else
        let res := dfConcat clean
        .ok (((res.setCol "SOLIDO" (derived.getCol "solido")).setCol "CUT_PLAN"
          (derived.getCol "cut_plan")).setCol "CUS_PLAN" (derived.getCol "cus_plan"))

/-- The working-copy loop of `process_individual_file`: membership checked
against the original columns, values read from the ORIGINAL frame and
coerced with `pd.to_numeric` — for all three mapped columns, `pas_cut`
included. -/
def indivLoop (orig : DataFrame) : List (String × String) → DataFrame → Except ProcError DataFrame
  | [], acc => .ok acc
  | (stdName, userCol) :: rest, acc =>
    if userCol ∈ orig.cols then
      indivLoop orig rest (acc.setCol stdName ((orig.getCol userCol).map toNumericValue))
    else .error (.missingColumn userCol)

/-- The working table of `process_individual_file` after mapping: the
numeric-coerced copies plus the `astype(str)` pass over `pas_cut`. -/
def indivWorkTable (df : DataFrame) (mapping : List (String × String)) : Except ProcError DataFrame :=
  match indivLoop df mapping df with
  | .error e => .error e
  | .ok w =>
    if "pas_cut" ∈ w.cols then
      .ok (w.mapColApply "pas_cut" (fun v => .str (valueToString v)))
    else .error (.missingColumn "pas_cut")

/-- `process_individual_file`: build the working table, label it, cap,
derive, then write the three uppercase result columns onto the original
frame.  Any failure is caught and yields `none`. -/
def processIndividualFile (file : Option DataFrame) (lab : String)
    (mapping : List (String × String)) (rules : List CapRule)
    (evalFormula : String → DataFrame → Except String (List Value)) (formula : String) :
    Option DataFrame :=
  match file with
  | none => none
  | some df =>
    if df.data = [] then none
    else
      match indivWorkTable df mapping with
      | .error _ => none
      | .ok w0 =>
        let w1 := w0.setColConst "solido" (.str lab)
        let w2 := calculateCusPlan evalFormula formula (applyCappingRules w1 rules)
        some (((df.setCol "SOLIDO" (w2.getCol "solido")).setCol "CUT_PLAN"
          (w2.getCol "cut_plan")).setCol "CUS_PLAN" (w2.getCol "cus_plan"))

/-! ## Reachable rule-store states -/

/-- Store states reachable from the empty store through the manager's three
mutators (`add_rule`, successful or not, `remove_rule`, `clear_all_rules`). -/
inductive Reachable : List CapRule → Prop where
  | empty : Reachable []
  | add {s s' : List CapRule} {solido pas_cut : String} {rmin rmax mult : ℚ} :
      Reachable s → addRule s solido pas_cut rmin rmax mult = .ok s' → Reachable s'
  | remove {s : List CapRule} {solido pas_cut : String} {rmin rmax : ℚ} :
      Reachable s → Reachable (removeRule s solido pas_cut rmin rmax).2
  | clear {s : List CapRule} : Reachable s → Reachable (clearAllRules s)

/-! ## Groundwork lemmas -/

/-- Well-formed frame: every row is positionally aligned with the columns. -/
def Wf (df : DataFrame) : Prop := ∀ row ∈ df.data, row.length = df.cols.length

instance (df : DataFrame) : Decidable (Wf df) := List.decidableBAll _ _

theorem alignTo_length (n : ℕ) (vs : List Value) : (alignTo n vs).length = n := by
  simp only [alignTo, List.length_append, List.length_take, List.length_replicate]
  omega

theorem alignTo_eq_self {n : ℕ} {vs : List Value} (h : vs.length = n) : alignTo n vs = vs := by
  simp [alignTo, h, List.take_of_length_le (le_of_eq h)]

theorem colIdx_lt_of_mem {cols : List String} {c : String} (h : c ∈ cols) :
    colIdx cols c < cols.length := List.indexOf_lt_length.2 h

theorem colIdx_eq_length_of_not_mem {cols : List String} {c : String} (h : c ∉ cols) :
    colIdx cols c = cols.length := List.indexOf_eq_length.2 h

theorem colIdx_ne_of_mem_ne {cols : List String} {c c' : String}
    (hc : c ∈ cols) (hc' : c' ∈ cols) (hne : c ≠ c') : colIdx cols c ≠ colIdx cols c' := by
  intro he
  apply hne
  have h1 := List.getElem_indexOf (colIdx_lt_of_mem hc)
  have h2 := List.getElem_indexOf (colIdx_lt_of_mem hc')
  rw [← h1, ← h2]
  congr 1

theorem length_setCellAt (cols : List String) (row : List Value) (c : String) (v : Value) :
    (setCellAt cols row c v).length = row.length := List.length_set ..

theorem cellAt_setCellAt_self {cols : List String} {row : List Value} {c : String} (v : Value)
    (h : colIdx cols c < row.length) :
    cellAt cols (setCellAt cols row c v) c = v := by
  simp only [cellAt, setCellAt, List.getD_eq_getElem?_getD]
  rw [List.getElem?_set_self h]
  rfl

theorem cellAt_setCellAt_ne {cols : List String} {row : List Value} {c c' : String}
    (hrow : row.length ≤ cols.length) (hne : c' ≠ c) (v : Value) :
    cellAt cols (setCellAt cols row c v) c' = cellAt cols row c' := by
  by_cases hc : c ∈ cols
  · by_cases hc' : c' ∈ cols
    · have hne2 : colIdx cols c ≠ colIdx cols c' := colIdx_ne_of_mem_ne hc hc' (fun h => hne h.symm)
      simp only [cellAt, setCellAt, List.getD_eq_getElem?_getD]
      rw [List.getElem?_set_ne hne2]
    · have h1 : colIdx cols c' = cols.length := colIdx_eq_length_of_not_mem hc'
      simp only [cellAt, setCellAt]
      rw [List.getD_eq_default _ _ (by rw [List.length_set]; omega),
        List.getD_eq_default _ _ (by omega)]
  · have h1 : colIdx cols c = cols.length := colIdx_eq_length_of_not_mem hc
    simp only [setCellAt]
    rw [List.set_eq_of_length_le (by omega)]

theorem getCol_length (df : DataFrame) (c : String) : (df.getCol c).length = df.data.length :=
  List.length_map ..

theorem setCol_cols_of_mem {df : DataFrame} {c : String} (h : c ∈ df.cols) (vs : List Value) :
    (df.setCol c vs).cols = df.cols := by
  simp [DataFrame.setCol, h]

theorem setCol_cols_of_not_mem {df : DataFrame} {c : String} (h : c ∉ df.cols) (vs : List Value) :
    (df.setCol c vs).cols = df.cols ++ [c] := by
  simp [DataFrame.setCol, h]

theorem setCol_data_length (df : DataFrame) (c : String) (vs : List Value) :
    (df.setCol c vs).data.length = df.data.length := by
  simp only [DataFrame.setCol]
  split <;>
    simp [List.length_zip, alignTo_length]

theorem setCol_data_getElem {df : DataFrame} {vs : List Value} (hlen : vs.length = df.data.length)
    (c : String) (i : ℕ) (hi : i < df.data.length) :
    (df.setCol c vs).data.get ⟨i, by rw [setCol_data_length]; exact hi⟩ =
      if c ∈ df.cols then
        (df.data.get ⟨i, hi⟩).set (colIdx df.cols c) (vs.get ⟨i, by omega⟩)
      else df.data.get ⟨i, hi⟩ ++ [vs.get ⟨i, by omega⟩] := by
  by_cases hc : c ∈ df.cols <;>
    simp [DataFrame.setCol, alignTo_eq_self hlen, hc, List.get_eq_getElem, List.getElem_map,
      List.getElem_zip]

theorem Wf_setCol {df : DataFrame} (hwf : Wf df) (c : String) (vs : List Value) :
    Wf (df.setCol c vs) := by
  intro row hrow
  simp only [DataFrame.setCol] at hrow ⊢
  split at hrow <;> rename_i hc <;>
    simp only [List.mem_map] at hrow <;>
    obtain ⟨p, hp, rfl⟩ := hrow <;>
    have hmem := List.of_mem_zip hp
  · simp [hc, List.length_set, hwf p.1 hmem.1]
  · simp [hc, hwf p.1 hmem.1]

theorem cellAt_setCol_self {df : DataFrame} {vs : List Value} (hwf : Wf df)
    (hlen : vs.length = df.data.length) (c : String) (i : ℕ) (hi : i < df.data.length) :
    cellAt (df.setCol c vs).cols
      ((df.setCol c vs).data.get ⟨i, by rw [setCol_data_length]; exact hi⟩) c =
      vs.get ⟨i, by omega⟩ := by
  rw [setCol_data_getElem hlen c i hi]
  have hrl : (df.data.get ⟨i, hi⟩).length = df.cols.length :=
    hwf _ (List.get_mem df.data i hi)
  by_cases hc : c ∈ df.cols
  · rw [setCol_cols_of_mem hc, if_pos hc]
    exact cellAt_setCellAt_self _ (by rw [hrl]; exact colIdx_lt_of_mem hc)
  · rw [setCol_cols_of_not_mem hc, if_neg hc]
    have hidx : colIdx (df.cols ++ [c]) c = df.cols.length := by
      rw [colIdx, List.indexOf_append_of_not_mem hc]
      simp
    simp only [cellAt, hidx]
    rw [List.getD_append_right _ _ _ _ (le_of_eq hrl), hrl]
    simp

theorem cellAt_setCol_ne {df : DataFrame} {vs : List Value} {c c' : String} (hwf : Wf df)
    (hlen : vs.length = df.data.length) (hne : c' ≠ c) (i : ℕ) (hi : i < df.data.length) :
    cellAt (df.setCol c vs).cols
      ((df.setCol c vs).data.get ⟨i, by rw [setCol_data_length]; exact hi⟩) c' =
      cellAt df.cols (df.data.get ⟨i, hi⟩) c' := by
  rw [setCol_data_getElem hlen c i hi]
  have hrl : (df.data.get ⟨i, hi⟩).length = df.cols.length :=
    hwf _ (List.get_mem df.data i hi)
  by_cases hc : c ∈ df.cols
  · rw [setCol_cols_of_mem hc, if_pos hc]
    exact cellAt_setCellAt_ne (le_of_eq hrl) hne _
  · rw [setCol_cols_of_not_mem hc, if_neg hc]
    by_cases hc' : c' ∈ df.cols
    · have hidx : colIdx (df.cols ++ [c]) c' = colIdx df.cols c' := by
        rw [colIdx, List.indexOf_append_of_mem hc']; rfl
      simp only [cellAt, hidx]
      rw [List.getD_append _ _ _ _ (by rw [hrl]; exact colIdx_lt_of_mem hc')]
    · have hcc : c' ∉ df.cols ++ [c] := by
        simp only [List.mem_append, List.mem_singleton]
        rintro (h | h)
        · exact hc' h
        · exact hne h
      have hidx : colIdx (df.cols ++ [c]) c' = df.cols.length + 1 := by
        have := colIdx_eq_length_of_not_mem hcc
        simpa using this
      simp only [cellAt, hidx, colIdx_eq_length_of_not_mem hc']
      rw [List.getD_eq_default _ _ (by rw [List.length_append, hrl]; simp),
        List.getD_eq_default _ _ (le_of_eq hrl)]

theorem getCol_setCol_self {df : DataFrame} {vs : List Value} (hwf : Wf df)
    (hlen : vs.length = df.data.length) (c : String) :
    (df.setCol c vs).getCol c = vs := by
  apply List.ext_get
  · rw [getCol_length, setCol_data_length, hlen]
  intro i h1 h2
  have hi : i < df.data.length := by rwa [getCol_length, setCol_data_length] at h1
  simp only [DataFrame.getCol, List.get_eq_getElem, List.getElem_map]
  have := cellAt_setCol_self hwf hlen c i hi
  simpa using this

theorem getCol_setCol_ne {df : DataFrame} {vs : List Value} {c c' : String} (hwf : Wf df)
    (hlen : vs.length = df.data.length) (hne : c' ≠ c) :
    (df.setCol c vs).getCol c' = df.getCol c' := by
  apply List.ext_get
  · rw [getCol_length, setCol_data_length, getCol_length]
  intro i h1 h2
  have hi : i < df.data.length := by rwa [getCol_length, setCol_data_length] at h1
  simp only [DataFrame.getCol, List.get_eq_getElem, List.getElem_map]
  have := cellAt_setCol_ne hwf hlen hne i hi
  simpa using this

/-! ## Capping-engine lemmas -/

theorem mem_cols_setCol_self (df : DataFrame) (c : String) (vs : List Value) :
    c ∈ (df.setCol c vs).cols := by
  by_cases hc : c ∈ df.cols
  · rw [setCol_cols_of_mem hc]; exact hc
  · rw [setCol_cols_of_not_mem hc]; simp

theorem ruleMask_congr {cols1 cols2 : List String} {row1 row2 : List Value} (r : CapRule)
    (h1 : cellAt cols1 row1 "solido" = cellAt cols2 row2 "solido")
    (h2 : cellAt cols1 row1 "pas_cut" = cellAt cols2 row2 "pas_cut")
    (h3 : cellAt cols1 row1 "cut_op" = cellAt cols2 row2 "cut_op") :
    ruleMask cols1 r row1 = ruleMask cols2 r row2 := by
  simp only [ruleMask, h1, h2, h3]

theorem applyRuleRow_length (cols : List String) (r : CapRule) (row : List Value) :
    (applyRuleRow cols r row).length = row.length := by
  simp only [applyRuleRow]
  split
  · exact length_setCellAt ..
  · rfl

theorem cellAt_applyRuleRow_ne {cols : List String} {row : List Value} {c : String}
    (hrow : row.length ≤ cols.length) (hne : c ≠ "cut_plan") (r : CapRule) :
    cellAt cols (applyRuleRow cols r row) c = cellAt cols row c := by
  simp only [applyRuleRow]
  split
  · exact cellAt_setCellAt_ne hrow hne _
  · rfl

theorem ruleMask_applyRuleRow {cols : List String} {row : List Value}
    (hrow : row.length ≤ cols.length) (r r' : CapRule) :
    ruleMask cols r (applyRuleRow cols r' row) = ruleMask cols r row :=
  ruleMask_congr r (cellAt_applyRuleRow_ne hrow (by decide) r')
    (cellAt_applyRuleRow_ne hrow (by decide) r') (cellAt_applyRuleRow_ne hrow (by decide) r')

/-- The per-row effect of the whole rule loop. -/
def capRow (cols : List String) (rules : List CapRule) (row : List Value) : List Value :=
  rules.foldl (fun r rule => applyRuleRow cols rule r) row

theorem capRow_length (cols : List String) (rules : List CapRule) (row : List Value) :
    (capRow cols rules row).length = row.length := by
  induction rules generalizing row with
  | nil => rfl
  | cons r rest ih =>
    simp only [capRow, List.foldl_cons] at ih ⊢
    rw [ih, applyRuleRow_length]

theorem foldl_capStep_eq (rules : List CapRule) (d : DataFrame) :
    rules.foldl capStep d = ⟨d.cols, d.data.map (capRow d.cols rules)⟩ := by
  induction rules generalizing d with
  | nil =>
    cases d
    simp only [List.foldl_nil]
    rw [show capRow _ ([] : List CapRule) = fun row => row from rfl, List.map_id']
  | cons r rest ih =>
    rw [List.foldl_cons, ih]
    simp only [capStep, List.map_map]
    rfl

theorem capRow_cut_plan {cols : List String} (hcp : "cut_plan" ∈ cols) (rules : List CapRule)
    {row : List Value} (hrow : row.length = cols.length) :
    cellAt cols (capRow cols rules row) "cut_plan" =
      match rules.reverse.find? (fun r => ruleMask cols r row) with
      | some r => valueMulQ (cellAt cols row "cut_op") r.multiplicador
      | none => cellAt cols row "cut_plan" := by
  induction rules generalizing row with
  | nil => rfl
  | cons r rest ih =>
    have hlen : (applyRuleRow cols r row).length = cols.length := by
      rw [applyRuleRow_length]; exact hrow
    have hmask : ∀ r' : CapRule,
        ruleMask cols r' (applyRuleRow cols r row) = ruleMask cols r' row :=
      fun r' => ruleMask_applyRuleRow (le_of_eq hrow) r' r
    have hcut : cellAt cols (applyRuleRow cols r row) "cut_op" = cellAt cols row "cut_op" :=
      cellAt_applyRuleRow_ne (le_of_eq hrow) (by decide) r
    simp only [capRow, List.foldl_cons]
    rw [show List.foldl (fun r2 rule => applyRuleRow cols rule r2) (applyRuleRow cols r row) rest
        = capRow cols rest (applyRuleRow cols r row) from rfl]
    rw [ih hlen]
    simp only [List.reverse_cons, List.find?_append]
    cases hfind : rest.reverse.find? (fun r2 => ruleMask cols r2 row) with
    | some r' =>
      have : rest.reverse.find? (fun r2 => ruleMask cols r2 (applyRuleRow cols r row)) = some r' := by
        rw [show (fun r2 => ruleMask cols r2 (applyRuleRow cols r row))
            = (fun r2 => ruleMask cols r2 row) from funext hmask]
        exact hfind
      rw [this]
      simp only [Option.or_some, hcut]
    | none =>
      have : rest.reverse.find? (fun r2 => ruleMask cols r2 (applyRuleRow cols r row)) = none := by
        rw [show (fun r2 => ruleMask cols r2 (applyRuleRow cols r row))
            = (fun r2 => ruleMask cols r2 row) from funext hmask]
        exact hfind
      rw [this]
      simp only [Option.none_or, List.find?_singleton]
      by_cases hm : ruleMask cols r row
      · simp only [hm, cond_true, applyRuleRow, if_pos hm]
        exact cellAt_setCellAt_self _ (by rw [hrow]; exact colIdx_lt_of_mem hcp)
      · simp only [Bool.not_eq_true] at hm
        simp [applyRuleRow, hm]

theorem applyCappingRules_cols (df : DataFrame) (rules : List CapRule) :
    (applyCappingRules df rules).cols = (df.setCol "cut_plan" (df.getCol "cut_op")).cols := by
  rw [applyCappingRules, foldl_capStep_eq]

theorem applyCappingRules_data_length (df : DataFrame) (rules : List CapRule) :
    (applyCappingRules df rules).data.length = df.data.length := by
  rw [applyCappingRules, foldl_capStep_eq]
  simp [setCol_data_length]

theorem Wf_applyCappingRules {df : DataFrame} (hwf : Wf df) (rules : List CapRule) :
    Wf (applyCappingRules df rules) := by
  rw [applyCappingRules, foldl_capStep_eq]
  intro row hrow
  simp only [List.mem_map] at hrow
  obtain ⟨row0, hmem, rfl⟩ := hrow
  rw [capRow_length]
  exact Wf_setCol hwf _ _ row0 hmem

/-! ## Claim C1 -/

/-- **C1** (capping correctness): after `_apply_capping_rules`, every row's
`cut_plan` equals `cut_op * multiplicador` of the LAST rule in rule-list
order whose mask (`solido` equal, `pas_cut` equal,
`rango_min ≤ cut_op < rango_max`) matches the row, and equals the row's
`cut_op` value unchanged when no rule's mask matches. -/
theorem capping_applies_last_matching_rule (df : DataFrame) (rules : List CapRule)
    (hwf : Wf df) (i : ℕ) (hi : i < df.data.length) :
    cellAt (applyCappingRules df rules).cols
      ((applyCappingRules df rules).data.get
        ⟨i, by rw [applyCappingRules_data_length]; exact hi⟩) "cut_plan" =
      match rules.reverse.find? (fun r => ruleMask df.cols r (df.data.get ⟨i, hi⟩)) with
      | some r => valueMulQ (cellAt df.cols (df.data.get ⟨i, hi⟩) "cut_op") r.multiplicador
      | none => cellAt df.cols (df.data.get ⟨i, hi⟩) "cut_op" := by
  have hlen : (df.getCol "cut_op").length = df.data.length := getCol_length ..
  have hi1 : i < (df.setCol "cut_plan" (df.getCol "cut_op")).data.length := by
    rw [setCol_data_length]; exact hi
  have hwf1 : Wf (df.setCol "cut_plan" (df.getCol "cut_op")) := Wf_setCol hwf _ _
  have hcpmem := mem_cols_setCol_self df "cut_plan" (df.getCol "cut_op")
  have hgetinit : (df.getCol "cut_op").get ⟨i, by omega⟩ =
      cellAt df.cols (df.data.get ⟨i, hi⟩) "cut_op" := by
    simp [DataFrame.getCol, List.get_eq_getElem, List.getElem_map]
  have h_cp : cellAt (df.setCol "cut_plan" (df.getCol "cut_op")).cols
      ((df.setCol "cut_plan" (df.getCol "cut_op")).data.get ⟨i, hi1⟩) "cut_plan" =
      cellAt df.cols (df.data.get ⟨i, hi⟩) "cut_op" := by
    rw [← hgetinit]
    exact cellAt_setCol_self hwf hlen "cut_plan" i hi
  have h_other : ∀ c : String, c ≠ "cut_plan" →
      cellAt (df.setCol "cut_plan" (df.getCol "cut_op")).cols
        ((df.setCol "cut_plan" (df.getCol "cut_op")).data.get ⟨i, hi1⟩) c =
        cellAt df.cols (df.data.get ⟨i, hi⟩) c := by
    intro c hc
    exact cellAt_setCol_ne hwf hlen hc i hi
  have h_mask : ∀ r : CapRule,
      ruleMask (df.setCol "cut_plan" (df.getCol "cut_op")).cols r
        ((df.setCol "cut_plan" (df.getCol "cut_op")).data.get ⟨i, hi1⟩) =
        ruleMask df.cols r (df.data.get ⟨i, hi⟩) := by
    intro r
    exact ruleMask_congr r (h_other _ (by decide)) (h_other _ (by decide)) (h_other _ (by decide))
  have happ : applyCappingRules df rules =
      ⟨(df.setCol "cut_plan" (df.getCol "cut_op")).cols,
        (df.setCol "cut_plan" (df.getCol "cut_op")).data.map
          (capRow (df.setCol "cut_plan" (df.getCol "cut_op")).cols rules)⟩ := by
    rw [applyCappingRules, foldl_capStep_eq]
  have hrow1len : ((df.setCol "cut_plan" (df.getCol "cut_op")).data.get ⟨i, hi1⟩).length =
      (df.setCol "cut_plan" (df.getCol "cut_op")).cols.length :=
    hwf1 _ (List.get_mem _ i hi1)
  have hmain := capRow_cut_plan hcpmem rules hrow1len
  have hR : i < (applyCappingRules df rules).data.length := by
    rw [applyCappingRules_data_length]; exact hi
  have h1 : (applyCappingRules df rules).data[i]? =
      some (capRow (df.setCol "cut_plan" (df.getCol "cut_op")).cols rules
        ((df.setCol "cut_plan" (df.getCol "cut_op")).data.get ⟨i, hi1⟩)) := by
    rw [happ]
    simp [List.getElem?_map, List.getElem?_eq_getElem hi1, List.get_eq_getElem]
  have h2 : (applyCappingRules df rules).data[i]? =
      some ((applyCappingRules df rules).data.get ⟨i, hR⟩) := by
    simp [List.get_eq_getElem, List.getElem?_eq_getElem hR]
  have hget : (applyCappingRules df rules).data.get ⟨i, hR⟩ =
      capRow (df.setCol "cut_plan" (df.getCol "cut_op")).cols rules
        ((df.setCol "cut_plan" (df.getCol "cut_op")).data.get ⟨i, hi1⟩) :=
    Option.some.inj (h2.symm.trans h1)
  have hcols : (applyCappingRules df rules).cols =
      (df.setCol "cut_plan" (df.getCol "cut_op")).cols := by rw [happ]
  show cellAt (applyCappingRules df rules).cols
      ((applyCappingRules df rules).data.get ⟨i, hR⟩) "cut_plan" = _
  rw [hget, hcols, hmain]
  rw [show (fun r => ruleMask (df.setCol "cut_plan" (df.getCol "cut_op")).cols r
      ((df.setCol "cut_plan" (df.getCol "cut_op")).data.get ⟨i, hi1⟩))
      = (fun r => ruleMask df.cols r (df.data.get ⟨i, hi⟩)) from funext h_mask]
  rw [h_cp, h_other "cut_op" (by decide)]

/-- Witness for C1 at a concrete frame and rule: the row
`(solido "10", pas_cut "3", cut_op 4)` under rule
`("10", "3", [2, 10), ×3)` gets `cut_plan = 4 * 3`. -/
theorem capping_applies_last_matching_rule_witness :
    cellAt (applyCappingRules
        ⟨["solido", "pas_cut", "cut_op"],
          [[Value.str "10", Value.str "3", Value.num 4]]⟩
        [⟨"10", "3", 2, 10, 3⟩]).cols
      ((applyCappingRules
        ⟨["solido", "pas_cut", "cut_op"],
          [[Value.str "10", Value.str "3", Value.num 4]]⟩
        [⟨"10", "3", 2, 10, 3⟩]).data.get ⟨0, by decide⟩) "cut_plan" =
      Value.num (4 * 3) := by
  have h := capping_applies_last_matching_rule
    ⟨["solido", "pas_cut", "cut_op"], [[Value.str "10", Value.str "3", Value.num 4]]⟩
    [⟨"10", "3", 2, 10, 3⟩] (by decide) 0 (by decide)
  exact h.trans (by rfl)

/-! ## Claims C3 and C8 -/

/-- The overlap test of `_find_overlapping_rule` against a candidate rule
for key `(solido, pas_cut)` with range `[rmin, rmax)`. -/
def overlapsNew (solido pas_cut : String) (rmin rmax : ℚ) (r : CapRule) : Prop :=
  r.solido = solido ∧ r.pas_cut = pas_cut ∧ rmin < r.rango_max ∧ r.rango_min < rmax

instance (solido pas_cut : String) (rmin rmax : ℚ) (r : CapRule) :
    Decidable (overlapsNew solido pas_cut rmin rmax r) :=
  inferInstanceAs (Decidable (_ ∧ _))

theorem findOverlappingRule_pred (solido pas_cut : String) (rmin rmax mult : ℚ) (r : CapRule) :
    (r.solido == (⟨solido, pas_cut, rmin, rmax, mult⟩ : CapRule).solido &&
      r.pas_cut == (⟨solido, pas_cut, rmin, rmax, mult⟩ : CapRule).pas_cut &&
      decide ((⟨solido, pas_cut, rmin, rmax, mult⟩ : CapRule).rango_min < r.rango_max) &&
      decide ((⟨solido, pas_cut, rmin, rmax, mult⟩ : CapRule).rango_max > r.rango_min)) = true ↔
    overlapsNew solido pas_cut rmin rmax r := by
  simp [overlapsNew, and_assoc, gt_iff_lt]

/-- **C3** (overlap replace on add): with a valid range and multiplier,
`add_rule` on a store with no same-key overlapping rule appends the new rule
leaving every existing rule in place, and on a store containing a same-key
overlapping rule it removes exactly one such rule and appends the new
rule. -/
theorem add_rule_overlap_replace (rules : List CapRule) (solido pas_cut : String)
    (rmin rmax mult : ℚ) (hr : rmin < rmax) (hm : 0 < mult) :
    ((∀ r ∈ rules, ¬ overlapsNew solido pas_cut rmin rmax r) →
      addRule rules solido pas_cut rmin rmax mult =
        .ok (rules ++ [⟨solido, pas_cut, rmin, rmax, mult⟩])) ∧
    ((∃ r ∈ rules, overlapsNew solido pas_cut rmin rmax r) →
      ∃ r ∈ rules, overlapsNew solido pas_cut rmin rmax r ∧
        addRule rules solido pas_cut rmin rmax mult =
          .ok (rules.erase r ++ [⟨solido, pas_cut, rmin, rmax, mult⟩])) := by
  constructor
  · intro hnone
    have hfind : findOverlappingRule rules ⟨solido, pas_cut, rmin, rmax, mult⟩ = none := by
      rw [findOverlappingRule, List.find?_eq_none]
      intro r hmem hpred
      exact hnone r hmem ((findOverlappingRule_pred solido pas_cut rmin rmax mult r).1 hpred)
    rw [addRule, if_neg (not_le.2 hr), if_neg (not_le.2 hm)]
    simp only [hfind]
  · intro hsomewhere
    obtain ⟨r0, hmem0, hov0⟩ := hsomewhere
    have hex : ∃ r ∈ rules,
        (r.solido == solido && r.pas_cut == pas_cut &&
          decide (rmin < r.rango_max) && decide (rmax > r.rango_min)) = true := by
      refine ⟨r0, hmem0, ?_⟩
      simpa [overlapsNew, and_assoc, gt_iff_lt] using hov0
    obtain ⟨r1, hfind⟩ := List.find?_isSome.2 hex |> Option.isSome_iff_exists.1
    have hfindF : findOverlappingRule rules ⟨solido, pas_cut, rmin, rmax, mult⟩ = some r1 := hfind
    refine ⟨r1, List.mem_of_find?_eq_some hfind, ?_, ?_⟩
    · have hp := List.find?_some hfind
      simpa [overlapsNew, and_assoc, gt_iff_lt] using hp
    · rw [addRule, if_neg (not_le.2 hr), if_neg (not_le.2 hm)]
      simp only [hfindF]

/-- Witness for C3: replacing add on a one-rule store with an overlapping
range, and a coexisting add with a disjoint range. -/
theorem add_rule_overlap_replace_witness :
    addRule [⟨"L", "C", 5, 15, 2⟩] "L" "C" 0 10 2 = .ok [⟨"L", "C", 0, 10, 2⟩] ∧
    addRule [⟨"L", "C", 5, 15, 2⟩] "L" "C" 20 30 2 =
      .ok [⟨"L", "C", 5, 15, 2⟩, ⟨"L", "C", 20, 30, 2⟩] := by
  constructor
  · obtain ⟨r, hmem, _, heq⟩ :=
      (add_rule_overlap_replace [⟨"L", "C", 5, 15, 2⟩] "L" "C" 0 10 2
        (by decide) (by decide)).2 ⟨⟨"L", "C", 5, 15, 2⟩, by simp, by decide⟩
    rw [List.mem_singleton] at hmem
    subst hmem
    simpa using heq
  · exact ((add_rule_overlap_replace [⟨"L", "C", 5, 15, 2⟩] "L" "C" 20 30 2
      (by decide) (by decide)).1 (by decide)).trans (by rfl)

/-- **C8** (add validation): `add_rule` rejects `rango_max ≤ rango_min` with
the range error, rejects a non-positive multiplier (with the multiplier
error when the range is valid; the range error takes precedence when both
fail), and in every failing case returns before touching the store — the
embedding returns only the error, so no modified store exists. -/
theorem add_rule_validation_errors (rules : List CapRule) (solido pas_cut : String)
    (rmin rmax mult : ℚ) :
    (rmax ≤ rmin → addRule rules solido pas_cut rmin rmax mult = .error .invalidRange) ∧
    (mult ≤ 0 → ∃ e, addRule rules solido pas_cut rmin rmax mult = .error e) ∧
    (mult ≤ 0 → rmin < rmax → addRule rules solido pas_cut rmin rmax mult =
      .error .invalidMultiplier) := by
  refine ⟨fun h => by rw [addRule, if_pos h], fun hm => ?_, fun hm hr => by
    rw [addRule, if_neg (not_le.2 hr), if_pos hm]⟩
  by_cases h : rmax ≤ rmin
  · exact ⟨.invalidRange, by rw [addRule, if_pos h]⟩
  · exact ⟨.invalidMultiplier, by rw [addRule, if_neg h, if_pos hm]⟩

/-- Witness for C8: both rejections at concrete inputs. -/
theorem add_rule_validation_errors_witness :
    addRule [] "L" "C" 5 3 1 = .error .invalidRange ∧
    addRule [] "L" "C" 1 2 0 = .error .invalidMultiplier :=
  ⟨(add_rule_validation_errors [] "L" "C" 5 3 1).1 (by decide),
    (add_rule_validation_errors [] "L" "C" 1 2 0).2.2 (by decide) (by decide)⟩

/-! ## Claims C2 and C6 (code defects exhibited by evaluation) -/

/-- **C2** (categorical coercion): the claim fails in the per-file mode.
`_map_columns` (consolidate-all mode) keeps a textual category value as that
string, but `process_individual_file` runs `pd.to_numeric` over ALL three
mapped columns, `pas_cut` included, so the same source value `"OXIDE"`
becomes missing and then the string `"nan"`, which can no longer equal any
rule's stored category value. -/
theorem indiv_pas_cut_numeric_coercion_bug :
    (mapColumns ⟨["CUT", "RST", "STG"], [[Value.num 1, Value.num 2, Value.str "OXIDE"]]⟩
        [("cut_op", "CUT"), ("rst_op", "RST"), ("pas_cut", "STG")]).map
        (fun d => d.getCol "pas_cut") = .ok [Value.str "OXIDE"] ∧
    (indivWorkTable ⟨["CUT", "RST", "STG"], [[Value.num 1, Value.num 2, Value.str "OXIDE"]]⟩
        [("cut_op", "CUT"), ("rst_op", "RST"), ("pas_cut", "STG")]).map
        (fun d => d.getCol "pas_cut") = .ok [Value.str "nan"] :=
  ⟨rfl, rfl⟩

/-- **C6** (batch error propagation): the claim fails. A file that fails at
the mapping stage while another file succeeds is skipped in the first pass,
but the second (re-read) pass of `process_block_models` has no try/except,
so the whole batch aborts with the missing-column error instead of
returning the processable file's rows; the error is not
`NoProcessableFilesError`. -/
theorem batch_mapping_failure_aborts_bug :
    processBlockModels
        [some ⟨["CUT", "RST", "STG"], [[Value.num 1, Value.num 2, Value.str "3"]]⟩,
          some ⟨["CUT", "RST", "XXX"], [[Value.num 1, Value.num 2, Value.num 3]]⟩]
        [some "A", some "B"]
        [("cut_op", "CUT"), ("rst_op", "RST"), ("pas_cut", "STG")] []
        (fun _ _ => .error "eval") cusPlanFormulaDefault = .error (.missingColumn "STG") ∧
    stage1Goods
        [some ⟨["CUT", "RST", "STG"], [[Value.num 1, Value.num 2, Value.str "3"]]⟩,
          some ⟨["CUT", "RST", "XXX"], [[Value.num 1, Value.num 2, Value.num 3]]⟩]
        [some "A", some "B"]
        [("cut_op", "CUT"), ("rst_op", "RST"), ("pas_cut", "STG")] ≠ [] ∧
    ProcError.missingColumn "STG" ≠ ProcError.noProcessableFiles :=
  ⟨rfl, by decide, by decide⟩

/-! ## Claim C4 -/

/-- **C4** (derived column): whenever the configured formula string is the
default expression, or the evaluation of a non-default formula raises an
error, `_calculate_cus_plan` produces `cus_plan = rst_op * cut_plan`
row-wise (the error falls back to the default formula instead of failing). -/
theorem cus_plan_default_and_fallback
    (evalFormula : String → DataFrame → Except String (List Value)) (formula : String)
    (df : DataFrame) (hwf : Wf df)
    (_hrst : "rst_op" ∈ df.cols) (_hcut : "cut_plan" ∈ df.cols) (_hop : "cut_op" ∈ df.cols)
    (h : formula = cusPlanFormulaDefault ∨ ∃ e, evalFormula formula df = .error e) :
    (calculateCusPlan evalFormula formula df).getCol "cus_plan" =
      List.zipWith valueMul (df.getCol "rst_op") (df.getCol "cut_plan") := by
  have hlen : (List.zipWith valueMul (df.getCol "rst_op") (df.getCol "cut_plan")).length =
      df.data.length := by
    rw [List.length_zipWith, getCol_length, getCol_length, min_self]
  by_cases hf : formula = cusPlanFormulaDefault
  · rw [calculateCusPlan, if_pos hf]
    exact getCol_setCol_self hwf hlen "cus_plan"
  · rcases h with h | ⟨e, he⟩
    · exact absurd h hf
    · rw [calculateCusPlan, if_neg hf, he]
      exact getCol_setCol_self hwf hlen "cus_plan"

/-- Witness for C4: a failing evaluator on a non-default formula still
yields the default product column. -/
theorem cus_plan_default_and_fallback_witness :
    (calculateCusPlan (fun _ _ => .error "boom") "cut_op ** 2"
        ⟨["rst_op", "cut_plan", "cut_op"], [[Value.num 2, Value.num 3, Value.num 3]]⟩).getCol
        "cus_plan" =
      List.zipWith valueMul
        (DataFrame.getCol ⟨["rst_op", "cut_plan", "cut_op"],
          [[Value.num 2, Value.num 3, Value.num 3]]⟩ "rst_op")
        (DataFrame.getCol ⟨["rst_op", "cut_plan", "cut_op"],
          [[Value.num 2, Value.num 3, Value.num 3]]⟩ "cut_plan") :=
  cus_plan_default_and_fallback (fun _ _ => .error "boom") "cut_op ** 2"
    ⟨["rst_op", "cut_plan", "cut_op"], [[Value.num 2, Value.num 3, Value.num 3]]⟩
    (by decide) (by decide) (by decide) (by decide) (.inr ⟨"boom", rfl⟩)

/-! ## Claim C10 -/

/-- **C10** (rule-field invariant): every store reachable from the empty
store through `add_rule`, `remove_rule` and `clear_all_rules` contains only
rules with `rango_min < rango_max` and `0 < multiplicador` (the five typed
fields hold by the construction `add_rule` performs with its `str`/`float`
coercions, which the embedding's record type reflects); per-key non-overlap
is NOT such an invariant: a reachable store can hold two distinct same-key
rules with overlapping ranges, because one `add` overlapping two existing
rules removes only one of them. -/
theorem reachable_rules_invariant :
    (∀ s, Reachable s → ∀ r ∈ s, r.rango_min < r.rango_max ∧ 0 < r.multiplicador) ∧
    (∃ s, Reachable s ∧ ∃ a ∈ s, ∃ b ∈ s, a ≠ b ∧ ruleKey a = ruleKey b ∧
      a.rango_min < b.rango_max ∧ b.rango_min < a.rango_max) := by
  constructor
  · intro s hs
    induction hs with
    | empty => simp
    | add hprev hok ih =>
      rename_i s0 s1 solido pas_cut rmin rmax mult
      by_cases h1 : rmax ≤ rmin
      · rw [addRule, if_pos h1] at hok; cases hok
      by_cases h2 : mult ≤ 0
      · rw [addRule, if_neg h1, if_pos h2] at hok; cases hok
      rw [addRule, if_neg h1, if_neg h2] at hok
      have hnew : (⟨solido, pas_cut, rmin, rmax, mult⟩ : CapRule).rango_min <
          (⟨solido, pas_cut, rmin, rmax, mult⟩ : CapRule).rango_max ∧
          (0 : ℚ) < (⟨solido, pas_cut, rmin, rmax, mult⟩ : CapRule).multiplicador :=
        ⟨not_le.1 h1, not_le.1 h2⟩
      intro r hr
      cases hfind : findOverlappingRule s0 ⟨solido, pas_cut, rmin, rmax, mult⟩ with
      | some r0 =>
        simp only [hfind, Except.ok.injEq] at hok
        subst hok
        rcases List.mem_append.1 hr with hr | hr
        · exact ih r (List.Sublist.mem hr (List.erase_sublist ..))
        · rw [List.mem_singleton] at hr; subst hr; exact hnew
      | none =>
        simp only [hfind, Except.ok.injEq] at hok
        subst hok
        rcases List.mem_append.1 hr with hr | hr
        · exact ih r hr
        · rw [List.mem_singleton] at hr; subst hr; exact hnew
    | remove hprev ih =>
      rename_i s0 solido pas_cut rmin rmax
      intro r hr
      rw [removeRule] at hr
      cases hfind : s0.find? (fun r =>
          r.solido == solido && r.pas_cut == pas_cut &&
          decide (r.rango_min = rmin) && decide (r.rango_max = rmax)) with
      | some r0 =>
        rw [hfind] at hr
        exact ih r (List.Sublist.mem hr (List.erase_sublist ..))
      | none =>
        rw [hfind] at hr
        exact ih r hr
    | clear hprev ih => intro r hr; cases hr
  · refine ⟨[⟨"L", "C", 20, 30, 1⟩, ⟨"L", "C", 5, 25, 1⟩], ?_,
      ⟨"L", "C", 20, 30, 1⟩, by simp, ⟨"L", "C", 5, 25, 1⟩, by simp, by decide, rfl,
      by decide, by decide⟩
    have h1 : Reachable [(⟨"L", "C", 0, 10, 1⟩ : CapRule)] :=
      @Reachable.add [] [⟨"L", "C", 0, 10, 1⟩] "L" "C" 0 10 1 Reachable.empty (by rfl)
    have h2 : Reachable [(⟨"L", "C", 0, 10, 1⟩ : CapRule), ⟨"L", "C", 20, 30, 1⟩] :=
      @Reachable.add [⟨"L", "C", 0, 10, 1⟩] [⟨"L", "C", 0, 10, 1⟩, ⟨"L", "C", 20, 30, 1⟩]
        "L" "C" 20 30 1 h1 (by rfl)
    exact @Reachable.add [⟨"L", "C", 0, 10, 1⟩, ⟨"L", "C", 20, 30, 1⟩]
      [⟨"L", "C", 20, 30, 1⟩, ⟨"L", "C", 5, 25, 1⟩] "L" "C" 5 25 1 h2 (by rfl)

/-- Witness for C10: the invariant instantiated at a concrete one-step
store. -/
theorem reachable_rules_invariant_witness : (1 : ℚ) < 2 ∧ (0 : ℚ) < 3 :=
  reachable_rules_invariant.1 [⟨"L", "C", 1, 2, 3⟩]
    (@Reachable.add [] [⟨"L", "C", 1, 2, 3⟩] "L" "C" 1 2 3 Reachable.empty (by rfl))
    ⟨"L", "C", 1, 2, 3⟩ (by simp)

/-! ## Claim C7 -/

/-- Two rules' half-open ranges overlap (symmetric form of the store's
overlap test). -/
def rangesOverlap (a b : CapRule) : Prop :=
  a.rango_min < b.rango_max ∧ b.rango_min < a.rango_max

instance (a b : CapRule) : Decidable (rangesOverlap a b) :=
  inferInstanceAs (Decidable (_ ∧ _))

/-- The store holds two rules (at distinct positions) sharing a key with
overlapping ranges. -/
def OverlapPair (rules : List CapRule) : Prop :=
  ∃ a b, [a, b].Subperm rules ∧ ruleKey a = ruleKey b ∧ rangesOverlap a b

theorem perm_pair_cases {α : Type} {a b c d : α} (h : [a, b].Perm [c, d]) :
    (a = c ∧ b = d) ∨ (a = d ∧ b = c) := by
  have ha : a = c ∨ a = d := by
    have := h.subset (List.mem_cons_self a [b])
    simpa using this
  rcases ha with rfl | rfl
  · left
    refine ⟨rfl, ?_⟩
    have := h.cons_inv
    rwa [List.perm_singleton, List.cons.injEq, and_iff_left rfl] at this
  · right
    refine ⟨rfl, ?_⟩
    have hswap : ([c, a] : List α).Perm [a, c] := List.Perm.swap a c []
    have := (h.trans hswap).cons_inv
    rwa [List.perm_singleton, List.cons.injEq, and_iff_left rfl] at this

theorem pair_subperm_rel {R : CapRule → CapRule → Prop} {l : List CapRule} {a b : CapRule}
    (hp : List.Pairwise R l) (hs : [a, b].Subperm l) : R a b ∨ R b a := by
  obtain ⟨l2, hperm, hsub⟩ := hs
  have hp2 : List.Pairwise R l2 := hp.sublist hsub
  have hlen : l2.length = 2 := hperm.length_eq
  obtain ⟨x, y, rfl⟩ : ∃ x y, l2 = [x, y] := by
    cases l2 with
    | nil => simp at hlen
    | cons x t =>
      cases t with
      | nil => simp at hlen
      | cons y t2 =>
        cases t2 with
        | nil => exact ⟨x, y, rfl⟩
        | cons z t3 => simp at hlen
  have hrel : R x y := (List.pairwise_cons.1 hp2).1 y (by simp)
  rcases perm_pair_cases hperm with ⟨rfl, rfl⟩ | ⟨rfl, rfl⟩
  · exact Or.inl hrel
  · exact Or.inr hrel

theorem pairwise_of_chain_of_sorted {l : List CapRule}
    (hc : List.Chain' (fun a b => a.rango_max ≤ b.rango_min) l) (hs : List.Sorted ruleLE l) :
    List.Pairwise (fun a b => a.rango_max ≤ b.rango_min) l := by
  induction l with
  | nil => exact List.Pairwise.nil
  | cons a t ih =>
    cases t with
    | nil => simp
    | cons c rest =>
      rw [List.chain'_cons] at hc
      rw [List.sorted_cons] at hs
      refine List.pairwise_cons.2 ⟨?_, ih hc.2 hs.2⟩
      intro b hb
      rcases List.mem_cons.1 hb with rfl | hb
      · exact hc.1
      · exact le_trans hc.1 (List.rel_of_sorted_cons hs.2 b hb)

theorem adjacentErrors_eq_nil_iff (g : List CapRule) :
    adjacentErrors g = [] ↔ List.Chain' (fun a b => a.rango_max ≤ b.rango_min) g := by
  induction g with
  | nil => simp [adjacentErrors]
  | cons a t ih =>
    cases t with
    | nil => simp [adjacentErrors]
    | cons b rest =>
      by_cases hlt : b.rango_min < a.rango_max
      · simp [adjacentErrors, hlt, not_le.2 hlt, List.chain'_cons]
      · simp [adjacentErrors, hlt, not_lt.1 hlt, List.chain'_cons, ih]

theorem adjacentErrors_ne_nil {g : List CapRule} (h : adjacentErrors g ≠ []) :
    ∃ a b, [a, b].Sublist g ∧ b.rango_min < a.rango_max := by
  induction g with
  | nil => exact absurd rfl h
  | cons a t ih =>
    cases t with
    | nil => exact absurd rfl h
    | cons b rest =>
      by_cases hlt : b.rango_min < a.rango_max
      · exact ⟨a, b, (List.nil_sublist rest).cons₂ b |>.cons₂ a, hlt⟩
      · have h2 : adjacentErrors (b :: rest) ≠ [] := by
          intro hnil2
          exact h (by simp [adjacentErrors, hlt, hnil2])
        obtain ⟨x, y, hsl, hv⟩ := ih h2
        exact ⟨x, y, hsl.cons a, hv⟩

theorem mem_groupKeys_aux (rules : List CapRule) (acc : List (String × String))
    (k : String × String) :
    (k ∈ rules.foldl (fun a r => if ruleKey r ∈ a then a else a ++ [ruleKey r]) acc ↔
      k ∈ acc ∨ ∃ r ∈ rules, ruleKey r = k) := by
  induction rules generalizing acc with
  | nil => simp
  | cons r t ih =>
    rw [List.foldl_cons, ih]
    by_cases hmem : ruleKey r ∈ acc
    · rw [if_pos hmem]
      constructor
      · rintro (h | ⟨r2, hr2, hk⟩)
        · exact Or.inl h
        · exact Or.inr ⟨r2, List.mem_cons_of_mem r hr2, hk⟩
      · rintro (h | ⟨r2, hr2, hk⟩)
        · exact Or.inl h
        · rcases List.mem_cons.1 hr2 with rfl | hr3
          · exact Or.inl (hk ▸ hmem)
          · exact Or.inr ⟨r2, hr3, hk⟩
    · rw [if_neg hmem]
      constructor
      · rintro (h | ⟨r2, hr2, hk⟩)
        · rcases List.mem_append.1 h with h2 | h2
          · exact Or.inl h2
          · exact Or.inr ⟨r, List.mem_cons_self r t, (List.mem_singleton.1 h2).symm⟩
        · exact Or.inr ⟨r2, List.mem_cons_of_mem r hr2, hk⟩
      · rintro (h | ⟨r2, hr2, hk⟩)
        · exact Or.inl (List.mem_append.2 (Or.inl h))
        · rcases List.mem_cons.1 hr2 with rfl | hr3
          · exact Or.inl (List.mem_append.2 (Or.inr (by simp [hk])))
          · exact Or.inr ⟨r2, hr3, hk⟩

theorem mem_groupKeys {rules : List CapRule} {r : CapRule} (h : r ∈ rules) :
    ruleKey r ∈ groupKeys rules :=
  (mem_groupKeys_aux rules [] (ruleKey r)).2 (Or.inr ⟨r, h, rfl⟩)

theorem validateRules_eq_nil_iff (rules : List CapRule) :
    validateRules rules = [] ↔
      ∀ k ∈ groupKeys rules, adjacentErrors (sortGroup (groupFor rules k)) = [] := by
  rw [validateRules, List.flatMap_eq_nil_iff]

/-- **C7** (validate detects overlap), amended: a store containing two
same-key rules with genuinely overlapping half-open ranges always makes
`validate_rules` return a non-empty error list; conversely, on a store in
which every rule has `rango_min < rango_max`, a non-empty error list
implies such a pair exists.  (On bypass-built stores with degenerate empty
ranges the converse fails, see the counterexample.) -/
theorem validate_nonempty_iff_overlap (rules : List CapRule) :
    (OverlapPair rules → validateRules rules ≠ []) ∧
    ((∀ r ∈ rules, r.rango_min < r.rango_max) →
      validateRules rules ≠ [] → OverlapPair rules) := by
  constructor
  · rintro ⟨a, b, hsub, hkey, hov⟩ hnil
    have hfilter : [a, b].filter (fun r => decide (ruleKey r = ruleKey a)) = [a, b] := by
      simp [← hkey]
    have hsubg : [a, b].Subperm (groupFor rules (ruleKey a)) := by
      have h2 := hsub.filter (fun r => decide (ruleKey r = ruleKey a))
      rw [hfilter] at h2
      exact h2
    have hsubs : [a, b].Subperm (sortGroup (groupFor rules (ruleKey a))) :=
      hsubg.trans (List.perm_insertionSort ruleLE _).symm.subperm
    have hkmem : ruleKey a ∈ groupKeys rules := mem_groupKeys (hsub.subset (by simp))
    have hchain : List.Chain' (fun a2 b2 => a2.rango_max ≤ b2.rango_min)
        (sortGroup (groupFor rules (ruleKey a))) :=
      (adjacentErrors_eq_nil_iff _).1
        ((validateRules_eq_nil_iff rules).1 hnil (ruleKey a) hkmem)
    have hpair := pairwise_of_chain_of_sorted hchain (List.sorted_insertionSort ruleLE _)
    rcases pair_subperm_rel hpair hsubs with h | h
    · exact absurd hov.2 (not_lt.2 h)
    · exact absurd hov.1 (not_lt.2 h)
  · intro hnd hne
    have hex : ∃ k ∈ groupKeys rules, adjacentErrors (sortGroup (groupFor rules k)) ≠ [] := by
      by_contra hall
      push_neg at hall
      exact hne ((validateRules_eq_nil_iff rules).2 hall)
    obtain ⟨k, hkmem, hkerr⟩ := hex
    obtain ⟨a, b, hsl, hviol⟩ := adjacentErrors_ne_nil hkerr
    have hsorted := List.sorted_insertionSort ruleLE (groupFor rules k)
    have hab : ruleLE a b := by
      have hp : List.Pairwise ruleLE [a, b] := hsorted.sublist hsl
      exact (List.pairwise_cons.1 hp).1 b (by simp)
    have hmema : a ∈ groupFor rules k :=
      (List.perm_insertionSort ruleLE _).mem_iff.1 (hsl.subset (by simp))
    have hmemb : b ∈ groupFor rules k :=
      (List.perm_insertionSort ruleLE _).mem_iff.1 (hsl.subset (by simp))
    have hka : ruleKey a = k := of_decide_eq_true (List.mem_filter.1 hmema).2
    have hkb : ruleKey b = k := of_decide_eq_true (List.mem_filter.1 hmemb).2
    have hbr : b ∈ rules := (List.mem_filter.1 hmemb).1
    refine ⟨a, b, ?_, hka.trans hkb.symm, lt_of_le_of_lt hab (hnd b hbr), hviol⟩
    exact (hsl.subperm.trans (List.perm_insertionSort ruleLE _).subperm).trans
      (List.filter_sublist rules).subperm

/-- Witness for C7 at a concrete overlapping store: validation reports an
error. -/
theorem validate_nonempty_iff_overlap_witness :
    validateRules [⟨"L", "C", 0, 5, 1⟩, ⟨"L", "C", 3, 8, 1⟩] ≠ [] :=
  (validate_nonempty_iff_overlap [⟨"L", "C", 0, 5, 1⟩, ⟨"L", "C", 3, 8, 1⟩]).1
    ⟨⟨"L", "C", 0, 5, 1⟩, ⟨"L", "C", 3, 8, 1⟩, List.Subperm.refl _, rfl, by decide⟩

/-- Counterexample to C7 as frozen: a bypass-built store with a degenerate
empty-range rule has NO pair of same-key overlapping rules, yet
`validate_rules` returns a non-empty error list, because the sorted
adjacent scan compares `current.rango_max > next.rango_min` only. -/
theorem validate_flags_degenerate_cx :
    validateRules [⟨"L", "C", 0, 5, 1⟩, ⟨"L", "C", 0, 0, 1⟩] ≠ [] ∧
    ¬ OverlapPair [⟨"L", "C", 0, 5, 1⟩, ⟨"L", "C", 0, 0, 1⟩] := by
  refine ⟨by decide, ?_⟩
  rintro ⟨a, b, hsub, hkey, hov⟩
  have hperm : [a, b].Perm [⟨"L", "C", 0, 5, 1⟩, ⟨"L", "C", 0, 0, 1⟩] :=
    hsub.perm_of_length_le (by simp)
  rcases perm_pair_cases hperm with ⟨rfl, rfl⟩ | ⟨rfl, rfl⟩
  · exact absurd hov.1 (by decide)
  · exact absurd hov.2 (by decide)

/-! ## Claim C9 -/

theorem mapColApply_data_length (df : DataFrame) (c : String) (f : Value → Value) :
    (df.mapColApply c f).data.length = df.data.length := List.length_map ..

theorem indivLoop_ok_data_length (orig : DataFrame) (mapping : List (String × String)) :
    ∀ (acc m : DataFrame), indivLoop orig mapping acc = .ok m →
      m.data.length = acc.data.length := by
  induction mapping with
  | nil =>
    intro acc m h
    rw [indivLoop] at h
    cases h
    rfl
  | cons p rest ih =>
    intro acc m h
    rw [indivLoop] at h
    by_cases huser : p.2 ∈ orig.cols
    · rw [if_pos huser] at h
      rw [ih _ _ h, setCol_data_length]
    · rw [if_neg huser] at h
      cases h

theorem indivWorkTable_ok_data_length {df : DataFrame} {mapping : List (String × String)}
    {m : DataFrame} (h : indivWorkTable df mapping = .ok m) :
    m.data.length = df.data.length := by
  unfold indivWorkTable at h
  cases hloop : indivLoop df mapping df with
  | error e => rw [hloop] at h; cases h
  | ok w =>
    rw [hloop] at h
    dsimp only at h
    by_cases hpc : "pas_cut" ∈ w.cols
    · rw [if_pos hpc] at h
      cases h
      rw [mapColApply_data_length]
      exact indivLoop_ok_data_length df mapping df w hloop
    · rw [if_neg hpc] at h
      cases h

theorem calculateCusPlan_data_length
    (evalFormula : String → DataFrame → Except String (List Value)) (formula : String)
    (df : DataFrame) :
    (calculateCusPlan evalFormula formula df).data.length = df.data.length := by
  rw [calculateCusPlan]
  by_cases hf : formula = cusPlanFormulaDefault
  · rw [if_pos hf, defaultCusPlan, setCol_data_length]
  · rw [if_neg hf]
    cases evalFormula formula df with
    | error e => rw [defaultCusPlan, setCol_data_length]
    | ok vs =>
      by_cases hstr : vs.any (fun v => match v with | .str _ => true | _ => false)
      · simp only [hstr, if_true, defaultCusPlan, setCol_data_length]
      · simp only [Bool.not_eq_true] at hstr
        simp only [hstr, Bool.false_eq_true, if_false, setCol_data_length]

/-- Counterexample to C9 as frozen: a source file that already has a
`CUT_PLAN` column gets it silently overwritten by the computed capped
values instead of appended, and its original values are lost. -/
theorem indiv_appended_columns_cx :
    (processIndividualFile
        (some ⟨["CUT", "RST", "STG", "CUT_PLAN"],
          [[Value.num 1, Value.num 2, Value.str "3", Value.num 99]]⟩)
        "S" [("cut_op", "CUT"), ("rst_op", "RST"), ("pas_cut", "STG")] []
        (fun _ _ => .error "eval") cusPlanFormulaDefault).map DataFrame.cols =
      some ["CUT", "RST", "STG", "CUT_PLAN", "SOLIDO", "CUS_PLAN"] ∧
    (processIndividualFile
        (some ⟨["CUT", "RST", "STG", "CUT_PLAN"],
          [[Value.num 1, Value.num 2, Value.str "3", Value.num 99]]⟩)
        "S" [("cut_op", "CUT"), ("rst_op", "RST"), ("pas_cut", "STG")] []
        (fun _ _ => .error "eval") cusPlanFormulaDefault).map
        (fun d => d.getCol "CUT_PLAN") = some [Value.num 1] ∧
    DataFrame.getCol ⟨["CUT", "RST", "STG", "CUT_PLAN"],
        [[Value.num 1, Value.num 2, Value.str "3", Value.num 99]]⟩ "CUT_PLAN" =
      [Value.num 99] :=
  ⟨rfl, rfl, rfl⟩

/-- **C9** (per-file augmentation frame property), amended: provided the
original file has none of the three output column names, the returned table
keeps every original column (name and values unchanged) and appends exactly
the three columns `SOLIDO`, `CUT_PLAN`, `CUS_PLAN`; the function consumes a
single file, so no cross-file data can enter. -/
theorem indiv_preserves_and_appends (df : DataFrame) (lab : String)
    (mapping : List (String × String)) (rules : List CapRule)
    (evalFormula : String → DataFrame → Except String (List Value)) (formula : String)
    (R : DataFrame) (hwf : Wf df)
    (h1 : "SOLIDO" ∉ df.cols) (h2 : "CUT_PLAN" ∉ df.cols) (h3 : "CUS_PLAN" ∉ df.cols)
    (h : processIndividualFile (some df) lab mapping rules evalFormula formula = some R) :
    R.cols = df.cols ++ ["SOLIDO", "CUT_PLAN", "CUS_PLAN"] ∧
    ∀ c ∈ df.cols, R.getCol c = df.getCol c := by
  rw [processIndividualFile] at h
  by_cases hd : df.data = []
  · rw [if_pos hd] at h; cases h
  rw [if_neg hd] at h
  cases hw : indivWorkTable df mapping with
  | error e => rw [hw] at h; cases h
  | ok w0 =>
    rw [hw] at h
    simp only [Option.some.injEq] at h
    subst h
    set w2 := calculateCusPlan evalFormula formula
      (applyCappingRules (w0.setColConst "solido" (.str lab)) rules) with hw2
    have hw2len : w2.data.length = df.data.length := by
      rw [hw2, calculateCusPlan_data_length, applyCappingRules_data_length,
        DataFrame.setColConst, setCol_data_length]
      exact indivWorkTable_ok_data_length hw
    have hslen : (w2.getCol "solido").length = df.data.length := by
      rw [getCol_length, hw2len]
    have htlen : (w2.getCol "cut_plan").length =
        (df.setCol "SOLIDO" (w2.getCol "solido")).data.length := by
      rw [getCol_length, hw2len, setCol_data_length]
    have hulen : (w2.getCol "cus_plan").length =
        ((df.setCol "SOLIDO" (w2.getCol "solido")).setCol "CUT_PLAN"
          (w2.getCol "cut_plan")).data.length := by
      rw [getCol_length, hw2len, setCol_data_length, setCol_data_length]
    have hwf1 : Wf (df.setCol "SOLIDO" (w2.getCol "solido")) := Wf_setCol hwf _ _
    have hwf2 : Wf ((df.setCol "SOLIDO" (w2.getCol "solido")).setCol "CUT_PLAN"
        (w2.getCol "cut_plan")) := Wf_setCol hwf1 _ _
    have hc1 : (df.setCol "SOLIDO" (w2.getCol "solido")).cols = df.cols ++ ["SOLIDO"] :=
      setCol_cols_of_not_mem h1 _
    have h2b : "CUT_PLAN" ∉ (df.setCol "SOLIDO" (w2.getCol "solido")).cols := by
      rw [hc1]
      simp only [List.mem_append, List.mem_singleton]
      rintro (hx | hx)
      · exact h2 hx
      · exact absurd hx (by decide)
    have hc2 : ((df.setCol "SOLIDO" (w2.getCol "solido")).setCol "CUT_PLAN"
        (w2.getCol "cut_plan")).cols = df.cols ++ ["SOLIDO"] ++ ["CUT_PLAN"] := by
      rw [setCol_cols_of_not_mem h2b, hc1]
    have h3b : "CUS_PLAN" ∉ ((df.setCol "SOLIDO" (w2.getCol "solido")).setCol "CUT_PLAN"
        (w2.getCol "cut_plan")).cols := by
      rw [hc2]
      simp only [List.mem_append, List.mem_singleton]
      rintro ((hx | hx) | hx)
      · exact h3 hx
      · exact absurd hx (by decide)
      · exact absurd hx (by decide)
    constructor
    · rw [setCol_cols_of_not_mem h3b, hc2]
      simp
    · intro c hc
      have hne1 : c ≠ "SOLIDO" := fun he => h1 (he ▸ hc)
      have hne2 : c ≠ "CUT_PLAN" := fun he => h2 (he ▸ hc)
      have hne3 : c ≠ "CUS_PLAN" := fun he => h3 (he ▸ hc)
      rw [getCol_setCol_ne hwf2 hulen hne3, getCol_setCol_ne hwf1 htlen hne2,
        getCol_setCol_ne hwf hslen hne1]

/-- Witness for C9 (amended) at a concrete collision-free file. -/
theorem indiv_preserves_and_appends_witness :
    ((processIndividualFile
        (some ⟨["CUT", "RST", "STG"], [[Value.num 1, Value.num 2, Value.str "3"]]⟩) "S"
        [("cut_op", "CUT"), ("rst_op", "RST"), ("pas_cut", "STG")] []
        (fun _ _ => .error "eval") cusPlanFormulaDefault).getD ⟨[], []⟩).cols =
      ["CUT", "RST", "STG"] ++ ["SOLIDO", "CUT_PLAN", "CUS_PLAN"] ∧
    ((processIndividualFile
        (some ⟨["CUT", "RST", "STG"], [[Value.num 1, Value.num 2, Value.str "3"]]⟩) "S"
        [("cut_op", "CUT"), ("rst_op", "RST"), ("pas_cut", "STG")] []
        (fun _ _ => .error "eval") cusPlanFormulaDefault).getD ⟨[], []⟩).getCol "CUT" =
      DataFrame.getCol ⟨["CUT", "RST", "STG"], [[Value.num 1, Value.num 2, Value.str "3"]]⟩
        "CUT" := by
  have hsome : processIndividualFile
      (some ⟨["CUT", "RST", "STG"], [[Value.num 1, Value.num 2, Value.str "3"]]⟩) "S"
      [("cut_op", "CUT"), ("rst_op", "RST"), ("pas_cut", "STG")] []
      (fun _ _ => .error "eval") cusPlanFormulaDefault =
      some ((processIndividualFile
        (some ⟨["CUT", "RST", "STG"], [[Value.num 1, Value.num 2, Value.str "3"]]⟩) "S"
        [("cut_op", "CUT"), ("rst_op", "RST"), ("pas_cut", "STG")] []
        (fun _ _ => .error "eval") cusPlanFormulaDefault).getD ⟨[], []⟩) := by
    have hs : (processIndividualFile
        (some ⟨["CUT", "RST", "STG"], [[Value.num 1, Value.num 2, Value.str "3"]]⟩) "S"
        [("cut_op", "CUT"), ("rst_op", "RST"), ("pas_cut", "STG")] []
        (fun _ _ => .error "eval") cusPlanFormulaDefault).isSome = true := rfl
    cases hp : processIndividualFile
        (some ⟨["CUT", "RST", "STG"], [[Value.num 1, Value.num 2, Value.str "3"]]⟩) "S"
        [("cut_op", "CUT"), ("rst_op", "RST"), ("pas_cut", "STG")] []
        (fun _ _ => .error "eval") cusPlanFormulaDefault with
    | none => rw [hp] at hs; simp at hs
    | some v => rfl
  obtain ⟨hcols, hvals⟩ := indiv_preserves_and_appends
    ⟨["CUT", "RST", "STG"], [[Value.num 1, Value.num 2, Value.str "3"]]⟩ "S"
    [("cut_op", "CUT"), ("rst_op", "RST"), ("pas_cut", "STG")] []
    (fun _ _ => .error "eval") cusPlanFormulaDefault _
    (by decide) (by decide) (by decide) (by decide) hsome
  exact ⟨hcols, hvals "CUT" (by decide)⟩

/-! ## Claim C5 -/

/-- Counterexample to C5 as frozen: a successful consolidate-all run
returns the re-read original columns first, with `cut_op`, `rst_op`,
`pas_cut` appended by the mapper and `SOLIDO`, `CUT_PLAN`, `CUS_PLAN`
appended last; no reordering to the claimed priority prefix happens (there
is not even a lowercase `cut_plan`/`cus_plan` or `label` column in the
result). -/
theorem consolidate_columns_order_cx :
    (processBlockModels
        [some ⟨["A", "CUT", "RST", "STG"],
          [[Value.num 9, Value.num 1, Value.num 2, Value.str "3"]]⟩]
        [some "S1"] [("cut_op", "CUT"), ("rst_op", "RST"), ("pas_cut", "STG")] []
        (fun _ _ => .error "eval") cusPlanFormulaDefault).map DataFrame.cols =
      .ok ["A", "CUT", "RST", "STG", "cut_op", "rst_op", "pas_cut",
        "SOLIDO", "CUT_PLAN", "CUS_PLAN"] ∧
    ["A", "CUT", "RST", "STG", "cut_op", "rst_op", "pas_cut",
        "SOLIDO", "CUT_PLAN", "CUS_PLAN"].take 6 ≠
      ["label", "pas_cut", "cut_op", "cut_plan", "rst_op", "cus_plan"] ∧
    ["A", "CUT", "RST", "STG", "cut_op", "rst_op", "pas_cut",
        "SOLIDO", "CUT_PLAN", "CUS_PLAN"].take 6 ≠
      ["solido", "pas_cut", "cut_op", "cut_plan", "rst_op", "cus_plan"] ∧
    ["A", "CUT", "RST", "STG", "cut_op", "rst_op", "pas_cut",
        "SOLIDO", "CUT_PLAN", "CUS_PLAN"].take 6 ≠
      ["SOLIDO", "pas_cut", "cut_op", "cut_plan", "rst_op", "cus_plan"] :=
  ⟨rfl, by decide, by decide, by decide⟩

theorem cols_after_three_appends (df : DataFrame) (s t u : List Value)
    (h1 : "SOLIDO" ∉ df.cols) (h2 : "CUT_PLAN" ∉ df.cols) (h3 : "CUS_PLAN" ∉ df.cols) :
    (((df.setCol "SOLIDO" s).setCol "CUT_PLAN" t).setCol "CUS_PLAN" u).cols =
      df.cols ++ ["SOLIDO", "CUT_PLAN", "CUS_PLAN"] := by
  have hc1 : (df.setCol "SOLIDO" s).cols = df.cols ++ ["SOLIDO"] :=
    setCol_cols_of_not_mem h1 _
  have h2b : "CUT_PLAN" ∉ (df.setCol "SOLIDO" s).cols := by
    rw [hc1]
    simp only [List.mem_append, List.mem_singleton]
    rintro (hx | hx)
    · exact h2 hx
    · exact absurd hx (by decide)
  have hc2 : ((df.setCol "SOLIDO" s).setCol "CUT_PLAN" t).cols =
      df.cols ++ ["SOLIDO"] ++ ["CUT_PLAN"] := by
    rw [setCol_cols_of_not_mem h2b, hc1]
  have h3b : "CUS_PLAN" ∉ ((df.setCol "SOLIDO" s).setCol "CUT_PLAN" t).cols := by
    rw [hc2]
    simp only [List.mem_append, List.mem_singleton]
    rintro ((hx | hx) | hx)
    · exact h3 hx
    · exact absurd hx (by decide)
    · exact absurd hx (by decide)
  rw [setCol_cols_of_not_mem h3b, hc2]
  simp

/-- **C5** (consolidate-all column order), amended: a successful
consolidate-all run returns the columns of the re-read, re-mapped
concatenation (original columns in first-seen order, with the normalized
`cut_op`, `rst_op`, `pas_cut` appended where absent) followed by the three
appended computed columns `SOLIDO`, `CUT_PLAN`, `CUS_PLAN`; no reordering
to the priority prefix of the frozen claim occurs. -/
theorem consolidate_appends_computed_columns (files : List (Option DataFrame))
    (labels : List (Option String)) (mapping : List (String × String)) (rules : List CapRule)
    (evalFormula : String → DataFrame → Except String (List Value)) (formula : String)
    (clean : List DataFrame)
    (hgoods : stage1Goods files labels mapping ≠ [])
    (hclean : cleanTables mapping files = .ok clean)
    (hne : clean ≠ [])
    (h1 : "SOLIDO" ∉ (dfConcat clean).cols) (h2 : "CUT_PLAN" ∉ (dfConcat clean).cols)
    (h3 : "CUS_PLAN" ∉ (dfConcat clean).cols) :
    (processBlockModels files labels mapping rules evalFormula formula).map DataFrame.cols =
      .ok ((dfConcat clean).cols ++ ["SOLIDO", "CUT_PLAN", "CUS_PLAN"]) := by
  rw [processBlockModels]
  simp only [if_neg hgoods, hclean, if_neg hne, Except.map]
  rw [cols_after_three_appends _ _ _ _ h1 h2 h3]

/-- Witness for C5 (amended) at a concrete single-file run. -/
theorem consolidate_appends_computed_columns_witness :
    (processBlockModels
        [some ⟨["A", "CUT", "RST", "STG"],
          [[Value.num 9, Value.num 1, Value.num 2, Value.str "3"]]⟩]
        [some "S1"] [("cut_op", "CUT"), ("rst_op", "RST"), ("pas_cut", "STG")] []
        (fun _ _ => .error "eval") cusPlanFormulaDefault).map DataFrame.cols =
      .ok (["A", "CUT", "RST", "STG", "cut_op", "rst_op", "pas_cut"] ++
        ["SOLIDO", "CUT_PLAN", "CUS_PLAN"]) := by
  have h := consolidate_appends_computed_columns
    [some ⟨["A", "CUT", "RST", "STG"],
      [[Value.num 9, Value.num 1, Value.num 2, Value.str "3"]]⟩]
    [some "S1"] [("cut_op", "CUT"), ("rst_op", "RST"), ("pas_cut", "STG")] []
    (fun _ _ => .error "eval") cusPlanFormulaDefault
    [⟨["A", "CUT", "RST", "STG", "cut_op", "rst_op", "pas_cut"],
      [[Value.num 9, Value.num 1, Value.num 2, Value.str "3",
        Value.num 1, Value.num 2, Value.str "3"]]⟩]
    (by decide) (by rfl) (by decide) (by decide) (by decide) (by decide)
  exact h.trans (by rfl)

end MiniConsol
